import Mathlib

/-!
Shallow embedding of `src/flux/flux.py` (entity trait/state runtime).

State tokens and capability tokens are opaque values of types `σ` and `τ`
with decidable equality.  Python dicts used as lookup tables are embedded
as functions into `Option` (`none` is a missing key, so reading a missing
key — Python `KeyError` — surfaces as `none`).  Python sets are `Finset`,
`Counter` multisets are `Multiset`.
-/

namespace Flux

/-- A Python dict used as a read-only lookup table: `d[k]` is `tbl k`;
a missing key (Python `KeyError`) is `none`. -/
abbrev PyDict (κ ν : Type) := κ → Option ν

/-- `base.update(new)`: every entry of `new` shadows the one of `base`. -/
def dictUpdate {κ ν : Type} (base new : PyDict κ ν) : PyDict κ ν :=
  fun k => match new k with
    | some v => some v
    | none => base k

/-- Identity labels.  `uuidObj n` is the value returned by the `n`-th call
of `uuid1()`; `uuidFn` is the function object `uuid1` itself, which is what
line 55/84/139 of the source stores (`c.name = uuid1`, with no call);
`str s` is a caller-supplied label. -/
inductive PyName where
  | uuidObj : Nat → PyName
  | uuidFn : PyName
  | str : String → PyName
deriving DecidableEq

/-- `StateMachine` (flux.py lines 66-91): a name, a transition table
`states : state → set of successor states`, and a current state. -/
structure StateMachine (σ : Type) where
  name : PyName
  states : PyDict σ (Finset σ)
  state : σ

/-- `StateMachine.__init__` (lines 69-73): `self.states = {final:{}} if
final is not None else {}` followed by `self.states.update(states)`, so a
key of the supplied `states` dict shadows the seeded `final ↦ ∅` entry. -/
def StateMachine.init {σ : Type} [DecidableEq σ] (states : PyDict σ (Finset σ))
    (first : σ) (name : PyName) (final : Option σ) : StateMachine σ :=
  { name := name
    states := dictUpdate (fun s => if final = some s then some ∅ else none) states
    state := first }

/-- `StateMachine.flux_to` (lines 75-80).  Reading `self.states[self.state]`
raises `KeyError` when the current state is not a key, hence the `Option`;
otherwise the call returns a boolean and the (possibly updated) machine. -/
def StateMachine.flux_to {σ : Type} [DecidableEq σ] (m : StateMachine σ)
    (to_state : σ) : Option (Bool × StateMachine σ) :=
  match m.states m.state with
  | none => none
  | some succ =>
    if to_state ∈ succ then some (true, { m with state := to_state })
    else some (false, m)

/-- `TraitMachine` (lines 93-143): adds the stateless/stateful trait split
and the derived `traits` field to the transition table.  (The `bag`,
`children` and `parent` fields play no role in transitions and are embedded
separately where a claim needs them.) -/
structure TraitMachine (σ τ : Type) where
  name : String
  states : PyDict σ (Finset σ)
  stateful_traits : PyDict σ (Finset τ)
  stateless_traits : Finset τ
  state : σ
  traits : Finset τ

/-- Trait-set composition shared by `TraitBag.__init__` (lines 43-45) and
`TraitMachine.__init__` (lines 104-106): union of the stereotypes and the
explicit includes, minus the explicit excludes. -/
def composeTraits {τ : Type} [DecidableEq τ] (stereotypes : List (Finset τ))
    (in_traits ex_traits : Finset τ) : Finset τ :=
  ((stereotypes.foldr (· ∪ ·) ∅) ∪ in_traits) \ ex_traits

/-- `TraitMachine.__init__` (lines 94-112), returning the machine together
with the warn flag (`warn("Thing has no traits!")` fires iff the computed
`traits` set is empty).  `self.stateful_traits = {first: set(), final: set()}`
then `.update(stateful_traits)`; `self.states = {final:{}}` then
`.update(states)`; `self.traits = stateless | stateful_traits[self.state]`
(the index never fails: `first` was just seeded).  With `final = none` the
Python dicts carry a `None` key, which no state token of type `σ` can equal,
so it is dropped from the embedding. -/
def TraitMachine.init {σ τ : Type} [DecidableEq σ] [DecidableEq τ]
    (states : PyDict σ (Finset σ)) (first : σ) (name : String)
    (final : Option σ) (stereotypes : List (Finset τ))
    (in_traits ex_traits : Finset τ)
    (stateful_traits : PyDict σ (Finset τ)) : TraitMachine σ τ × Bool :=
  let st := dictUpdate
    (fun s => if s = first ∨ final = some s then some ∅ else none) stateful_traits
  let tbl := dictUpdate (fun s => if final = some s then some ∅ else none) states
  let stateless := composeTraits stereotypes in_traits ex_traits
  let traits := stateless ∪ (st first).getD ∅
  ({ name := name, states := tbl, stateful_traits := st,
     stateless_traits := stateless, state := first, traits := traits },
   decide (traits = ∅))

/-- The state/traits assignment pair of a successful `TraitMachine.flux_to`
(lines 131-132): `self.state = to_state` then
`self.traits = stateless_traits | stateful_traits.get(self.state, set())`. -/
def TraitMachine.moveTo {σ τ : Type} [DecidableEq τ] (m : TraitMachine σ τ)
    (to_state : σ) : TraitMachine σ τ :=
  { m with
    state := to_state
    traits := m.stateless_traits ∪ (m.stateful_traits to_state).getD ∅ }

/-- `TraitMachine.flux_to` (lines 129-135): same transition check as
`StateMachine.flux_to`; on success `traits` is recomputed as
`stateless_traits | stateful_traits.get(new_state, set())`. -/
def TraitMachine.flux_to {σ τ : Type} [DecidableEq σ] [DecidableEq τ]
    (m : TraitMachine σ τ) (to_state : σ) : Option (Bool × TraitMachine σ τ) :=
  match m.states m.state with
  | none => none
  | some succ =>
    if to_state ∈ succ then some (true, m.moveTo to_state)
    else some (false, m)

/-- C1: for every `StateMachine` and `TraitMachine` whose current state is a
key of its transition table, `flux_to t` returns `true` and sets the state
to `t` exactly when `t` is in the successor set of the current state, and
otherwise returns `false` leaving the machine unchanged; the call never
raises (never returns `none`), and a self-transition succeeds only when the
table lists the current state as its own successor. -/
theorem flux_to_sound {σ τ : Type} [DecidableEq σ] [DecidableEq τ]
    (m : StateMachine σ) (n : TraitMachine σ τ) (t : σ)
    (succm succn : Finset σ)
    (hm : m.states m.state = some succm)
    (hn : n.states n.state = some succn) :
    (m.flux_to t).isSome = true ∧
    (t ∈ succm → m.flux_to t = some (true, { m with state := t })) ∧
    (t ∉ succm → m.flux_to t = some (false, m)) ∧
    (n.flux_to t).isSome = true ∧
    (t ∈ succn → n.flux_to t = some (true, n.moveTo t)) ∧
    (t ∉ succn → n.flux_to t = some (false, n)) := by
  unfold StateMachine.flux_to TraitMachine.flux_to
  rw [hm, hn]
  by_cases h1 : t ∈ succm <;> by_cases h2 : t ∈ succn <;>
    simp [h1, h2]

/-- Concrete two-state machines used as witnesses. -/
def wSM : StateMachine Nat :=
  { name := .str "m"
    states := fun s => if s = 0 then some {1} else if s = 1 then some ∅ else none
    state := 0 }

/-- Concrete `TraitMachine` companion of `wSM`. -/
def wTM : TraitMachine Nat Nat :=
  { name := "thing"
    states := fun s => if s = 0 then some {1} else if s = 1 then some ∅ else none
    stateful_traits := fun s => if s = 1 then some {7} else if s = 0 then some ∅ else none
    stateless_traits := {3}
    state := 0
    traits := {3} }

/-- C1 witness: `flux_to_sound` instantiated at the concrete machines. -/
theorem flux_to_sound_witness :
    wSM.states wSM.state = some {1} ∧
    wTM.states wTM.state = some {1} ∧
    ((wSM.flux_to 1).isSome = true ∧
     ((1 : Nat) ∈ ({1} : Finset Nat) → wSM.flux_to 1 = some (true, { wSM with state := 1 })) ∧
     ((1 : Nat) ∉ ({1} : Finset Nat) → wSM.flux_to 1 = some (false, wSM)) ∧
     (wTM.flux_to 1).isSome = true ∧
     ((1 : Nat) ∈ ({1} : Finset Nat) → wTM.flux_to 1 = some (true, wTM.moveTo 1)) ∧
     ((1 : Nat) ∉ ({1} : Finset Nat) → wTM.flux_to 1 = some (false, wTM))) :=
  ⟨rfl, rfl, flux_to_sound wSM wTM 1 {1} {1} rfl rfl⟩

/-- C2: after a successful `TraitMachine.flux_to` the `traits` field equals
`stateless_traits ∪ stateful_traits.get(new_state, ∅)` exactly; after a
failed call the machine (and so its `traits` field) is unchanged. -/
theorem trait_recomputation {σ τ : Type} [DecidableEq σ] [DecidableEq τ]
    (m m2 : TraitMachine σ τ) (t : σ) (b : Bool)
    (h : m.flux_to t = some (b, m2)) :
    (b = true → m2.traits = m.stateless_traits ∪ (m.stateful_traits t).getD ∅) ∧
    (b = false → m2 = m) := by
  unfold TraitMachine.flux_to at h
  rcases hk : m.states m.state with _ | succ <;> rw [hk] at h
  · exact absurd h (by simp)
  · by_cases ht : t ∈ succ <;> simp [ht] at h
    · obtain ⟨hb, hm⟩ := h
      subst hb
      refine ⟨fun _ => ?_, by simp⟩
      rw [← hm]
      rfl
    · obtain ⟨hb, hm⟩ := h
      subst hb
      exact ⟨by simp, fun _ => hm.symm⟩

/-- C2 witness: `trait_recomputation` at a concrete successful transition. -/
theorem trait_recomputation_witness :
    wTM.flux_to 1 = some (true, wTM.moveTo 1) ∧
    ((true = true →
      (wTM.moveTo 1).traits = wTM.stateless_traits ∪ (wTM.stateful_traits 1).getD ∅) ∧
     (true = false → wTM.moveTo 1 = wTM)) :=
  ⟨rfl, trait_recomputation wTM (wTM.moveTo 1) 1 true rfl⟩

/-- A sequence of `flux_to` calls on a `StateMachine`, threading the machine
and propagating a `KeyError` (`none`); the Booleans the calls return are
discarded, as a caller free to ignore them would. -/
def StateMachine.runSeq {σ : Type} [DecidableEq σ] (m : StateMachine σ) :
    List σ → Option (StateMachine σ)
  | [] => some m
  | t :: ts =>
    match m.flux_to t with
    | none => none
    | some (_, m2) => m2.runSeq ts

/-- A transition table is closed when every listed successor is itself a key. -/
def closedTable {σ : Type} (tbl : PyDict σ (Finset σ)) : Prop :=
  ∀ s succ, tbl s = some succ → ∀ t ∈ succ, (tbl t).isSome = true

/-- Whether the machine's current state is a key of its transition table. -/
def StateMachine.stateIsKey {σ : Type} (m : StateMachine σ) : Bool :=
  (m.states m.state).isSome

/-- A machine whose table lists a successor that is not itself a key. -/
def openSM : StateMachine Nat :=
  { name := .str "m"
    states := fun s => if s = 0 then some {1} else none
    state := 0 }

/-- C6 counterexample: `openSM` starts in state `0`, a key of its table, yet
after the single successful call `flux_to(1)` the current state `1` is not a
key of the table, refuting the claimed invariant. -/
theorem state_key_invariant_cex :
    openSM.stateIsKey = true ∧
    (openSM.runSeq [1]).map StateMachine.stateIsKey = some false := by
  constructor <;> rfl

/-- A sequence of `flux_to` calls on a `TraitMachine`, threading the machine
and propagating a `KeyError` (`none`), Booleans discarded. -/
def TraitMachine.runSeq {σ τ : Type} [DecidableEq σ] [DecidableEq τ]
    (m : TraitMachine σ τ) : List σ → Option (TraitMachine σ τ)
  | [] => some m
  | t :: ts =>
    match m.flux_to t with
    | none => none
    | some (_, m2) => m2.runSeq ts

/-- Whether a `TraitMachine`'s current state is a key of its table. -/
def TraitMachine.stateIsKey {σ τ : Type} (m : TraitMachine σ τ) : Bool :=
  (m.states m.state).isSome

/-- One `StateMachine` step preserves "state is a key" under a closed table. -/
theorem flux_to_preserves_key {σ : Type} [DecidableEq σ]
    (m : StateMachine σ) (t : σ) (b : Bool) (m2 : StateMachine σ)
    (hc : closedTable m.states) (h : m.flux_to t = some (b, m2)) :
    m2.states = m.states ∧ m2.stateIsKey = true := by
  unfold StateMachine.flux_to at h
  rcases hk : m.states m.state with _ | succ <;> rw [hk] at h
  · exact absurd h (by simp)
  · by_cases ht : t ∈ succ <;> simp [ht] at h
    · obtain ⟨_, hm⟩ := h
      subst hm
      exact ⟨rfl, hc m.state succ hk t ht⟩
    · obtain ⟨_, hm⟩ := h
      subst hm
      exact ⟨rfl, by simp [StateMachine.stateIsKey, hk]⟩

/-- One `TraitMachine` step preserves "state is a key" under a closed
table. -/
theorem tm_flux_to_preserves_key {σ τ : Type} [DecidableEq σ] [DecidableEq τ]
    (m : TraitMachine σ τ) (t : σ) (b : Bool) (m2 : TraitMachine σ τ)
    (hc : closedTable m.states) (h : m.flux_to t = some (b, m2)) :
    m2.states = m.states ∧ m2.stateIsKey = true := by
  unfold TraitMachine.flux_to at h
  rcases hk : m.states m.state with _ | succ <;> rw [hk] at h
  · exact absurd h (by simp)
  · by_cases ht : t ∈ succ <;> simp [ht] at h
    · obtain ⟨_, hm⟩ := h
      subst hm
      exact ⟨rfl, hc m.state succ hk t ht⟩
    · obtain ⟨_, hm⟩ := h
      subst hm
      exact ⟨rfl, by simp [TraitMachine.stateIsKey, hk]⟩

/-- `StateMachine` half of the amended C6 invariant. -/
theorem sm_runSeq_key {σ : Type} [DecidableEq σ]
    (m : StateMachine σ) (ts : List σ)
    (hc : closedTable m.states) (hs : m.stateIsKey = true) :
    (m.runSeq ts).isSome = true ∧
    (m.runSeq ts).map StateMachine.stateIsKey = some true := by
  induction ts generalizing m with
  | nil => simpa [StateMachine.runSeq]
  | cons t ts ih =>
    unfold StateMachine.runSeq
    rcases hk : m.states m.state with _ | succ
    · simp [StateMachine.stateIsKey, hk] at hs
    · rcases hstep : m.flux_to t with _ | ⟨b, m2⟩
      · unfold StateMachine.flux_to at hstep
        rw [hk] at hstep
        by_cases ht : t ∈ succ <;> simp [ht] at hstep
      · obtain ⟨hsame, hkey⟩ := flux_to_preserves_key m t b m2 hc hstep
        simpa using ih m2 (hsame ▸ hc) hkey

/-- `TraitMachine` half of the amended C6 invariant. -/
theorem tm_runSeq_key {σ τ : Type} [DecidableEq σ] [DecidableEq τ]
    (m : TraitMachine σ τ) (ts : List σ)
    (hc : closedTable m.states) (hs : m.stateIsKey = true) :
    (m.runSeq ts).isSome = true ∧
    (m.runSeq ts).map TraitMachine.stateIsKey = some true := by
  induction ts generalizing m with
  | nil => simpa [TraitMachine.runSeq]
  | cons t ts ih =>
    unfold TraitMachine.runSeq
    rcases hk : m.states m.state with _ | succ
    · simp [TraitMachine.stateIsKey, hk] at hs
    · rcases hstep : m.flux_to t with _ | ⟨b, m2⟩
      · unfold TraitMachine.flux_to at hstep
        rw [hk] at hstep
        by_cases ht : t ∈ succ <;> simp [ht] at hstep
      · obtain ⟨hsame, hkey⟩ := tm_flux_to_preserves_key m t b m2 hc hstep
        simpa using ih m2 (hsame ▸ hc) hkey

/-- C6 amended: for a `StateMachine` and a `TraitMachine` alike, if
additionally every successor listed in the transition table is itself a key
of the table (the table is closed) and the initial state is a key, then any
sequence of `flux_to` calls completes without a `KeyError` and leaves the
current state a key of the states mapping. -/
theorem state_key_invariant {σ τ : Type} [DecidableEq σ] [DecidableEq τ]
    (m : StateMachine σ) (n : TraitMachine σ τ) (ts us : List σ)
    (hcm : closedTable m.states) (hsm : m.stateIsKey = true)
    (hcn : closedTable n.states) (hsn : n.stateIsKey = true) :
    ((m.runSeq ts).isSome = true ∧
     (m.runSeq ts).map StateMachine.stateIsKey = some true) ∧
    ((n.runSeq us).isSome = true ∧
     (n.runSeq us).map TraitMachine.stateIsKey = some true) :=
  ⟨sm_runSeq_key m ts hcm hsm, tm_runSeq_key n us hcn hsn⟩

/-- C6 amended witness: `state_key_invariant` on closed two-state tables of
both machine kinds, running one successful and one refused transition. -/
theorem state_key_invariant_witness :
    closedTable wSM.states ∧ wSM.stateIsKey = true ∧
    closedTable wTM.states ∧ wTM.stateIsKey = true ∧
    (((wSM.runSeq [1, 0]).isSome = true ∧
      (wSM.runSeq [1, 0]).map StateMachine.stateIsKey = some true) ∧
     ((wTM.runSeq [1, 0]).isSome = true ∧
      (wTM.runSeq [1, 0]).map TraitMachine.stateIsKey = some true)) := by
  have hcm : closedTable wSM.states := by
    intro s succ hs t ht
    by_cases h0 : s = 0 <;> by_cases h1 : s = 1 <;>
      simp [wSM, h0, h1] at hs <;> subst hs <;>
      simp at ht <;> simp [wSM, ht]
  have hcn : closedTable wTM.states := by
    intro s succ hs t ht
    by_cases h0 : s = 0 <;> by_cases h1 : s = 1 <;>
      simp [wTM, h0, h1] at hs <;> subst hs <;>
      simp at ht <;> simp [wTM, ht]
  exact ⟨hcm, rfl, hcn, rfl,
    state_key_invariant wSM wTM [1, 0] [1, 0] hcm rfl hcn rfl⟩

/-- A machine declared with final state `0` whose supplied table also has an
entry for `0`: `self.states.update(states)` overwrites the seeded `0 ↦ ∅`. -/
def finalOverriddenSM : StateMachine Nat :=
  StateMachine.init (fun k => if k = 0 then some {1} else none) 0 (.str "m") (some 0)

/-- C7 counterexample: a machine constructed with declared final state `0`
whose transition table maps `0` to `{1}`, not to the empty set, and which
transitions out of its final state, refuting terminal absorption as
claimed. -/
theorem terminal_absorption_cex :
    finalOverriddenSM.states 0 = some {1} ∧
    ({1} : Finset Nat) ≠ ∅ ∧
    (finalOverriddenSM.flux_to 1).map Prod.fst = some true := by
  refine ⟨rfl, by decide, rfl⟩

/-- C7 amended: if the declared final state `f` is not itself a key of the
supplied states mapping, the constructed table (of either machine kind) maps
`f` to the empty successor set; and any machine sitting in a state whose
successor set is empty fails every `flux_to` — including `flux_to` to that
very state — returning `false` and staying unchanged. -/
theorem terminal_absorption {σ τ : Type} [DecidableEq σ] [DecidableEq τ]
    (states : PyDict σ (Finset σ)) (f first : σ) (nm : PyName) (nm2 : String)
    (stereotypes : List (Finset τ)) (in_traits ex_traits : Finset τ)
    (stateful_traits : PyDict σ (Finset τ))
    (hf : states f = none)
    (m : StateMachine σ) (n : TraitMachine σ τ) (t : σ)
    (hm : m.states m.state = some ∅) (hn : n.states n.state = some ∅) :
    (StateMachine.init states first nm (some f)).states f = some ∅ ∧
    (TraitMachine.init states first nm2 (some f) stereotypes in_traits
        ex_traits stateful_traits).1.states f = some ∅ ∧
    m.flux_to t = some (false, m) ∧
    n.flux_to t = some (false, n) := by
  refine ⟨?_, ?_, ?_, ?_⟩
  · simp [StateMachine.init, dictUpdate, hf]
  · simp [TraitMachine.init, dictUpdate, hf]
  · unfold StateMachine.flux_to
    rw [hm]
    simp
  · unfold TraitMachine.flux_to
    rw [hn]
    simp

/-- A machine stuck in its (unoverridden) final state `1`. -/
def stuckSM : StateMachine Nat :=
  { StateMachine.init (fun k => if k = 0 then some {1} else none) 0 (.str "m") (some 1)
    with state := 1 }

/-- `TraitMachine` companion of `stuckSM`, in final state `1`. -/
def stuckTM : TraitMachine Nat Nat :=
  { (TraitMachine.init (fun k => if k = 0 then some {1} else none) 0 "thing"
      (some 1) [] {3} ∅ (fun _ => none)).1 with state := 1 }

/-- C7 amended witness: `terminal_absorption` at concrete machines in their
final state, trying the self-transition. -/
theorem terminal_absorption_witness :
    (fun k => if k = 0 then some ({1} : Finset Nat) else none) 1 = none ∧
    stuckSM.states stuckSM.state = some ∅ ∧
    stuckTM.states stuckTM.state = some ∅ ∧
    ((StateMachine.init (fun k => if k = 0 then some ({1} : Finset Nat) else none)
        0 (.str "m") (some 1)).states 1 = some ∅ ∧
     (TraitMachine.init (fun k => if k = 0 then some ({1} : Finset Nat) else none)
        0 "thing" (some 1) ([] : List (Finset Nat)) {3} ∅ (fun _ => none)).1.states 1 = some ∅ ∧
     stuckSM.flux_to 1 = some (false, stuckSM) ∧
     stuckTM.flux_to 1 = some (false, stuckTM)) :=
  ⟨rfl, rfl, rfl,
   terminal_absorption (fun k => if k = 0 then some {1} else none) 1 0
     (.str "m") "thing" [] {3} ∅ (fun _ => none) (by simp) stuckSM stuckTM 1 rfl rfl⟩

/-- Construction parameters under which `TraitMachine.__init__` warns even
though the per-state overlay of state `1` is the non-empty `{5}` — the
warning tests only the traits effective in the initial state `0`. -/
def warnInit : TraitMachine Nat Nat × Bool :=
  TraitMachine.init (fun _ => none) 0 "thing" none [] ∅ ∅
    (fun s => if s = 1 then some {5} else none)

/-- C8 counterexample: construction emits the warning although not every
trait set of the entity is empty (state `1` carries trait `5`), refuting the
"only if" direction of the claim. -/
theorem no_traits_warning_cex :
    warnInit.2 = true ∧
    warnInit.1.stateful_traits 1 = some {5} ∧
    ({5} : Finset Nat) ≠ ∅ := by
  refine ⟨by decide, rfl, by decide⟩

/-- C8 amended: construction of a `TraitMachine` always succeeds (the
machine starts in the given initial state), and the warning is emitted if
and only if the traits effective at construction — `stateless_traits` union
the overlay of the initial state — form the empty set.  In particular the
claim's "if" direction stands: when every trait set is empty, so is this
union, and the warning fires. -/
theorem no_traits_warning {σ τ : Type} [DecidableEq σ] [DecidableEq τ]
    (states : PyDict σ (Finset σ)) (first : σ) (nm : String) (final : Option σ)
    (stereotypes : List (Finset τ)) (in_traits ex_traits : Finset τ)
    (stateful_traits : PyDict σ (Finset τ)) :
    (TraitMachine.init states first nm final stereotypes in_traits ex_traits
        stateful_traits).1.state = first ∧
    ((TraitMachine.init states first nm final stereotypes in_traits ex_traits
        stateful_traits).2 = true ↔
      (TraitMachine.init states first nm final stereotypes in_traits ex_traits
        stateful_traits).1.traits = ∅) := by
  unfold TraitMachine.init
  simp

/-- C8 amended witness: `no_traits_warning` at the parameters of
`warnInit`. -/
theorem no_traits_warning_witness :
    (TraitMachine.init (fun _ => none) 0 "thing" none [] ∅ ∅
        (fun s => if s = 1 then some ({5} : Finset Nat) else none)).1.state = 0 ∧
    ((TraitMachine.init (fun _ => none) 0 "thing" none [] ∅ ∅
        (fun s => if s = 1 then some ({5} : Finset Nat) else none)).2 = true ↔
      (TraitMachine.init (fun _ => none) 0 "thing" none [] ∅ ∅
        (fun s => if s = 1 then some ({5} : Finset Nat) else none)).1.traits = ∅) :=
  no_traits_warning (fun _ => none) 0 "thing" none [] ∅ ∅
    (fun s => if s = 1 then some {5} else none)

/-- The diagnostic a blocked capability gate emits (line 171-172):
`warn("... isn't available while ...")` carrying the wrapped behavior's
qualified name, the target's name and the target's current state. -/
structure GateDiag (σ : Type) where
  behavior : String
  targetName : String
  targetState : σ
deriving DecidableEq

/-- Outcome of one call through the capability gate: the argument pairs the
wrapped behavior was invoked with (in order), the resulting actor/target
pair, and the diagnostics emitted.  The gate has no return value in the
source; totality of this function is the embedding of "never raises". -/
structure GateResult (α σ τ : Type) where
  calls : List (α × TraitMachine σ τ)
  result : α × TraitMachine σ τ
  diags : List (GateDiag σ)

/-- `can` (lines 165-174): the wrapped behavior runs, once, with the
original `(actor, thing)` pair exactly when `trait in thing.traits`;
otherwise nothing runs and one warning naming `method.__qualname__`,
`thing.name` and `thing.state` is emitted.  The behavior is embedded as a
transformer of the actor/target pair so its effects are observable. -/
def can {α σ τ : Type} [DecidableEq τ] (trait : τ) (qualname : String)
    (method : α → TraitMachine σ τ → α × TraitMachine σ τ)
    (actor : α) (thing : TraitMachine σ τ) : GateResult α σ τ :=
  if trait ∈ thing.traits then
    { calls := [(actor, thing)], result := method actor thing, diags := [] }
  else
    { calls := [], result := (actor, thing),
      diags := [{ behavior := qualname, targetName := thing.name,
                  targetState := thing.state }] }

/-- C4: when the target holds the required trait, the gate invokes the
wrapped behavior exactly once with the original `(actor, target)` pair, its
effect is the result, and no diagnostic is emitted; otherwise the behavior
is never invoked, the pair is untouched, and exactly one diagnostic naming
the behavior, the target's identity and the target's current state is
emitted.  Both branches return normally (the gate is a total function). -/
theorem can_gate {α σ τ : Type} [DecidableEq τ] (trait : τ) (qualname : String)
    (method : α → TraitMachine σ τ → α × TraitMachine σ τ)
    (actor : α) (thing : TraitMachine σ τ) :
    (trait ∈ thing.traits →
      can trait qualname method actor thing =
        { calls := [(actor, thing)], result := method actor thing, diags := [] }) ∧
    (trait ∉ thing.traits →
      can trait qualname method actor thing =
        { calls := [], result := (actor, thing),
          diags := [{ behavior := qualname, targetName := thing.name,
                      targetState := thing.state }] }) := by
  unfold can
  by_cases h : trait ∈ thing.traits <;> simp [h]

/-- A concrete gated behavior for the C4 witness: it increments the actor. -/
def wMethod : Nat → TraitMachine Nat Nat → Nat × TraitMachine Nat Nat :=
  fun a t => (a + 1, t)

/-- C4 witness: `can_gate` at `wTM` (which holds trait `3` but not `9`),
once permitted and once refused. -/
theorem can_gate_witness :
    (3 : Nat) ∈ wTM.traits ∧ (9 : Nat) ∉ wTM.traits ∧
    can 3 "Foo.use" wMethod 0 wTM =
      { calls := [(0, wTM)], result := wMethod 0 wTM, diags := [] } ∧
    can 9 "Foo.use" wMethod 0 wTM =
      { calls := [], result := (0, wTM),
        diags := [{ behavior := "Foo.use", targetName := wTM.name,
                    targetState := wTM.state }] } :=
  ⟨by decide, by decide,
   (can_gate 3 "Foo.use" wMethod 0 wTM).1 (by decide),
   (can_gate 9 "Foo.use" wMethod 0 wTM).2 (by decide)⟩

/-- Python dict keys of the shared registry `d` (line 145): `fdispatch`
stores plain `frozenset` keys, `mdispatch` stores
`(func.__qualname__, frozenset)` tuples; the two shapes never compare
equal, just as a frozenset never equals a tuple in Python. -/
inductive DKey (τ : Type) where
  | fkey : Finset τ → DKey τ
  | mkey : String → Finset τ → DKey τ
deriving DecidableEq

/-- The module-level registry `d` with its registration history: Python dict
assignment `d[k] = v` prepends, and lookup takes the most recent binding. -/
abbrev Registry (τ ι : Type) := List (DKey τ × ι)

/-- `d[k] = v`. -/
def dset {τ ι : Type} (d : Registry τ ι) (k : DKey τ) (v : ι) : Registry τ ι :=
  (k, v) :: d

/-- `d[k]`, as `Option`: `none` is the propagated `KeyError`. -/
def dlookup {τ ι : Type} [DecidableEq τ] (d : Registry τ ι) (k : DKey τ) :
    Option ι :=
  match d with
  | [] => none
  | (k2, v) :: rest => if k = k2 then some v else dlookup rest k

/-- The body of `fdispatch`'s wrapper `call` (lines 150-151):
`d[frozenset(first)](first, *args)` — look the call-time trait set up in the
shared registry and apply the registered implementation to the original
arguments.  `none` is the propagated `KeyError` on a lookup miss. -/
def fdispatchCall {τ α ρ : Type} [DecidableEq τ]
    (d : Registry τ (Finset τ → α → ρ)) (first : Finset τ) (args : α) :
    Option ρ :=
  (dlookup d (.fkey first)).map (fun f => f first args)

/-- The body of `mdispatch`'s wrapper `call` (lines 159-160):
`d[(func.__qualname__, frozenset(first))](self, first, *args)`. -/
def mdispatchCall {τ α ρ : Type} [DecidableEq τ]
    (d : Registry τ (Finset τ → α → ρ)) (qualname : String)
    (first : Finset τ) (args : α) : Option ρ :=
  (dlookup d (.mkey qualname first)).map (fun f => f first args)

/-- A successful lookup only ever returns a binding registered under the
looked-up key itself. -/
theorem dlookup_mem {τ ι : Type} [DecidableEq τ] (d : Registry τ ι)
    (k : DKey τ) (v : ι) (h : dlookup d k = some v) : (k, v) ∈ d := by
  induction d with
  | nil => simp [dlookup] at h
  | cons p rest ih =>
    obtain ⟨k2, v2⟩ := p
    by_cases hk : k = k2
    · subst hk
      simp [dlookup] at h
      simp [h]
    · simp [dlookup, hk] at h
      exact List.mem_cons_of_mem _ (ih h)

/-- A lookup among entries none of which carries the key misses. -/
theorem dlookup_none {τ ι : Type} [DecidableEq τ] (d : Registry τ ι)
    (k : DKey τ) (h : ∀ p ∈ d, p.1 ≠ k) : dlookup d k = none := by
  induction d with
  | nil => rfl
  | cons p rest ih =>
    obtain ⟨k2, v2⟩ := p
    have hp : k2 ≠ k := h (k2, v2) (List.mem_cons_self _ _)
    have hk : ¬(k = k2) := fun e => hp e.symm
    simp [dlookup, hk]
    exact ih (fun q hq => h q (List.mem_cons_of_mem _ hq))

/-- C3: dispatch is by exact set equality — a `fdispatch` call with trait
set `T` that finds `g` found it registered under precisely the key
`frozenset T` (never a proper subset or superset, which are different
keys), and applies it to the original arguments; when no entry carries the
key `frozenset T` the lookup miss propagates as a hard failure.  The
`mdispatch` variant behaves the same with keys extended by the qualified
name, so equal trait sets under different qualified names never collide. -/
theorem exact_set_dispatch {τ α ρ : Type} [DecidableEq τ]
    (d : Registry τ (Finset τ → α → ρ)) (T S : Finset τ) (args : α)
    (g : Finset τ → α → ρ) (q q2 : String)
    (hS : S ≠ T) (hq : q ≠ q2) :
    (dlookup d (.fkey T) = some g →
      ((DKey.fkey T, g) ∈ d ∧ fdispatchCall d T args = some (g T args))) ∧
    ((∀ p ∈ d, p.1 ≠ DKey.fkey S) → fdispatchCall d S args = none) ∧
    (DKey.fkey S ≠ DKey.fkey T) ∧
    (dlookup d (.mkey q T) = some g →
      ((DKey.mkey q T, g) ∈ d ∧ mdispatchCall d q T args = some (g T args))) ∧
    ((∀ p ∈ d, p.1 ≠ DKey.mkey q S) → mdispatchCall d q S args = none) ∧
    (DKey.mkey q T ≠ DKey.mkey q2 T) := by
  refine ⟨fun h => ⟨dlookup_mem d _ g h, ?_⟩, fun h => ?_, by simp [hS], ?_, ?_, by simp [hq]⟩
  · simp [fdispatchCall, h]
  · simp [fdispatchCall, dlookup_none d _ h]
  · exact fun h => ⟨dlookup_mem d _ g h, by simp [mdispatchCall, h]⟩
  · exact fun h => by simp [mdispatchCall, dlookup_none d _ h]

/-- Two named implementations for the dispatch witnesses. -/
def implA : Finset Nat → Nat → Nat := fun _ a => a + 1

/-- Second implementation, distinguishable from `implA`. -/
def implB : Finset Nat → Nat → Nat := fun _ a => a + 2

/-- A registry with free-function entries for `{1}` and `{1, 2}` and a
method-style entry for `("A.f", {1, 2})`, as in the spec's exact-set
dispatch scenario. -/
def wReg : Registry Nat (Finset Nat → Nat → Nat) :=
  dset (dset (dset [] (.fkey {1}) implA) (.fkey {1, 2}) implB)
    (.mkey "A.f" {1, 2}) implB

/-- C3 witness: `exact_set_dispatch` on `wReg` — the caller with traits
`{1, 2}` routes to `implB` (registered for exactly `{1, 2}`), never the
`{1}` entry, and a caller with traits `{1, 3}` hits the hard lookup miss. -/
theorem exact_set_dispatch_witness :
    ({1, 3} : Finset Nat) ≠ {1, 2} ∧ "A.f" ≠ "B.f" ∧
    dlookup wReg (.fkey {1, 2}) = some implB ∧
    dlookup wReg (.mkey "A.f" {1, 2}) = some implB ∧
    (∀ p ∈ wReg, p.1 ≠ DKey.fkey {1, 3}) ∧
    ((dlookup wReg (.fkey {1, 2}) = some implB →
      ((DKey.fkey {1, 2}, implB) ∈ wReg ∧
        fdispatchCall wReg {1, 2} 10 = some (implB {1, 2} 10))) ∧
     ((∀ p ∈ wReg, p.1 ≠ DKey.fkey {1, 3}) →
        fdispatchCall wReg {1, 3} 10 = none) ∧
     (DKey.fkey ({1, 3} : Finset Nat) ≠ DKey.fkey {1, 2}) ∧
     (dlookup wReg (.mkey "A.f" {1, 2}) = some implB →
      ((DKey.mkey "A.f" {1, 2}, implB) ∈ wReg ∧
        mdispatchCall wReg "A.f" {1, 2} 10 = some (implB {1, 2} 10))) ∧
     ((∀ p ∈ wReg, p.1 ≠ DKey.mkey "A.f" {1, 3}) →
        mdispatchCall wReg "A.f" {1, 3} 10 = none) ∧
     (DKey.mkey "A.f" ({1, 2} : Finset Nat) ≠ DKey.mkey "B.f" {1, 2})) := by
  have h1 : ({1, 3} : Finset Nat) ≠ {1, 2} := by decide
  have h2 : ("A.f" : String) ≠ "B.f" := by decide
  exact ⟨h1, h2, rfl, rfl, by decide,
    exact_set_dispatch wReg {1, 2} {1, 3} 10 implB "A.f" "B.f" h1 h2⟩

/-- C10: `fdispatch` (line 152) and `mdispatch` (line 161) both assign into
the single module-level dict `d` (line 145), embedded as one `Registry`
whose keys carry both shapes; registration is plain dict assignment, so it
returns only the updated table — no diagnostic — and is last-wins: after
registering `f1` then `f2` under the same key, lookup at that key yields
`f2`, and if `f1` was not registered anywhere else, no lookup at any key
(of either shape) ever yields `f1` again. -/
theorem registration_last_wins {τ ι : Type} [DecidableEq τ]
    (d : Registry τ ι) (k : DKey τ) (f1 f2 : ι)
    (hne : f1 ≠ f2) (hfresh : ∀ k2, dlookup d k2 ≠ some f1) :
    dlookup (dset (dset d k f1) k f2) k = some f2 ∧
    ∀ k2, dlookup (dset (dset d k f1) k f2) k2 ≠ some f1 := by
  constructor
  · simp [dset, dlookup]
  · intro k2
    by_cases h : k2 = k
    · subst h
      simp [dset, dlookup]
      exact fun e => hne e.symm
    · simp [dset, dlookup, h]
      exact hfresh k2

/-- C10 witness: `registration_last_wins` on the empty registry at the key
`frozenset {1}`, with the two distinguishable implementations. -/
theorem registration_last_wins_witness :
    implA ≠ implB ∧
    (∀ k2, dlookup ([] : Registry Nat (Finset Nat → Nat → Nat)) k2 ≠ some implA) ∧
    (dlookup (dset (dset [] (.fkey {1}) implA) (.fkey {1}) implB) (.fkey {1}) =
      some implB ∧
     ∀ k2, dlookup (dset (dset ([] : Registry Nat (Finset Nat → Nat → Nat))
        (.fkey {1}) implA) (.fkey {1}) implB) k2 ≠ some implA) := by
  have hne : implA ≠ implB := by
    intro h
    have h2 := congrFun (congrFun h ∅) 0
    simp [implA, implB] at h2
  have hfresh : ∀ k2, dlookup ([] : Registry Nat (Finset Nat → Nat → Nat)) k2 ≠
      some implA := by
    intro k2
    simp [dlookup]
  exact ⟨hne, hfresh, registration_last_wins [] (.fkey {1}) implA implB hne hfresh⟩

/-- The heap of `Counter` objects, addressed by reference: Python variables
hold references, and `copy(self)` copies the reference stored in the `bag`
slot, not the `Counter` it points to. -/
structure BagStore (τ : Type) where
  bags : Nat → Multiset τ

/-- In-place mutation of the `Counter` at reference `r` (what
`clone.bag[token] += 1` does). -/
def BagStore.setBag {τ : Type} (s : BagStore τ) (r : Nat) (m : Multiset τ) :
    BagStore τ :=
  { bags := fun k => if k = r then m else s.bags k }

/-- `TraitBag` (lines 11-56): identity label, composed trait set, and the
reference to its `Counter` in the heap. -/
structure TraitBag (τ : Type) where
  name : PyName
  traits : Finset τ
  bagRef : Nat

/-- The multiset a bag's `bag` slot currently denotes. -/
def TraitBag.bagVal {τ : Type} (s : BagStore τ) (b : TraitBag τ) : Multiset τ :=
  s.bags b.bagRef

/-- `TraitBag.clone` (lines 53-56) — textually identical to
`StateMachine.clone` (82-85) and `TraitMachine.clone` (137-140):
`c = copy(self)` is a shallow copy, so `c.bagRef` is the same reference,
and `c.name = uuid1 if name is None else name` stores the *function object*
`uuid1` (no call) when no name is passed. -/
def TraitBag.clone {τ : Type} (b : TraitBag τ) (name : Option PyName) :
    TraitBag τ :=
  { b with name := name.getD PyName.uuidFn }

/-- A prototype bag holding one token `2`, its `Counter` at reference 0. -/
def origBag : TraitBag Nat :=
  { name := .uuidObj 0, traits := {1}, bagRef := 0 }

/-- A second, unrelated bag (for the uniqueness half of the claim). -/
def otherBag : TraitBag Nat :=
  { name := .uuidObj 1, traits := ∅, bagRef := 1 }

/-- Heap for the clone scenario: reference 0 holds `{2}`. -/
def store0 : BagStore Nat :=
  { bags := fun r => if r = 0 then ({2} : Multiset Nat) else 0 }

/-- C5, evaluated at the failing input: `clone()` with the name omitted
labels the copy with the function object `uuid1` — the same non-fresh label
for every clone of every bag, and `clone(n)` does set the label to `n` —
and the copy shares the original's `Counter` reference, so writing `{2, 2}`
into the clone's bag makes the original's bag read `{2, 2}` as well. -/
theorem clone_code_bug :
    (origBag.clone none).name = PyName.uuidFn ∧
    (otherBag.clone none).name = PyName.uuidFn ∧
    (origBag.clone (some (.str "x"))).name = PyName.str "x" ∧
    (origBag.clone none).bagRef = origBag.bagRef ∧
    origBag.bagVal store0 = ({2} : Multiset Nat) ∧
    origBag.bagVal (store0.setBag (origBag.clone none).bagRef ({2, 2} : Multiset Nat)) =
      ({2, 2} : Multiset Nat) ∧
    ({2, 2} : Multiset Nat) ≠ ({2} : Multiset Nat) := by
  refine ⟨rfl, rfl, rfl, rfl, rfl, rfl, by decide⟩

/-- The machine hierarchy as `walk` sees it: an entity (its label) together
with the list of entities its `children` collection yields.  The `WeakSet`
iteration order of lines 62 is fixed here as the list order. -/
inductive MachineTree (α : Type) where
  | mk : α → List (MachineTree α) → MachineTree α

/-- The `children` attribute read by `walk`. -/
def MachineTree.children {α : Type} : MachineTree α → List (MachineTree α)
  | .mk _ cs => cs

mutual

/-- `walk` (lines 59-64): `yield node`, then `yield from walk(child)` for
each child in order. -/
def walk {α : Type} : MachineTree α → List (MachineTree α)
  | .mk a cs => .mk a cs :: walkLoop cs

/-- The `for child in node.children` loop of `walk`. -/
def walkLoop {α : Type} : List (MachineTree α) → List (MachineTree α)
  | [] => []
  | c :: cs => walk c ++ walkLoop cs

end

mutual

/-- Number of nodes of the tree, counting one visit per distinct path. -/
def numNodes {α : Type} : MachineTree α → Nat
  | .mk _ cs => 1 + numNodesLoop cs

/-- Total node count of a list of subtrees. -/
def numNodesLoop {α : Type} : List (MachineTree α) → Nat
  | [] => 0
  | c :: cs => numNodes c + numNodesLoop cs

end

mutual

/-- `walk` visits exactly `numNodes` entities: one per distinct path, with
no deduplication. -/
theorem walk_length {α : Type} : (t : MachineTree α) →
    (walk t).length = numNodes t
  | .mk a cs => by
    simp [walk, numNodes, walkLoop_length cs, Nat.add_comm]

/-- Loop counterpart of `walk_length`. -/
theorem walkLoop_length {α : Type} : (ts : List (MachineTree α)) →
    (walkLoop ts).length = numNodesLoop ts
  | [] => rfl
  | c :: cs => by
    simp [walkLoop, numNodesLoop, walk_length c, walkLoop_length cs]

end

/-- C9: `walk` yields the root first (`yield node` precedes the loop) and
then the descendants depth-first, one visit per distinct path — its length
is the full node count, with no deduplication; a childless machine yields
exactly itself; the spec's shape — two children, the first with one child
of its own — yields exactly 4 entities starting with the root.  Each call
of `walk` recomputes the traversal from scratch (it is a function of the
tree alone), which embeds restartability. -/
theorem walk_preorder {α : Type} (a b c g : α) (t : MachineTree α) :
    (walk t).head? = some t ∧
    (walk t).length = numNodes t ∧
    walk (MachineTree.mk a []) = [MachineTree.mk a []] ∧
    (walk (MachineTree.mk a [MachineTree.mk b [MachineTree.mk g []],
        MachineTree.mk c []])).length = 4 ∧
    (walk (MachineTree.mk a [MachineTree.mk b [MachineTree.mk g []],
        MachineTree.mk c []])).head? =
      some (MachineTree.mk a [MachineTree.mk b [MachineTree.mk g []],
        MachineTree.mk c []]) := by
  obtain ⟨x, cs⟩ := t
  refine ⟨rfl, walk_length _, rfl, rfl, rfl⟩

end Flux
